import Mathlib

/-!
Verification of the looping countdown streamer (`src/Main.py`, `src/config.py`).

The Python program is shallowly embedded here:

* a decoded image is a `Frame`: a tree of the opaque image operations the
  program applies (`cv2.resize`, `cv2.copyMakeBorder`, the
  rectangle+`putText` overlay), each recording the parameters that determine
  the resulting pixel buffer; width and height are computed from the tree,
* Python `float` time values become `ℚ`, `int(x)` becomes truncation toward
  zero (`pyTrunc`), Python `divmod(a, 60)` becomes `Int.fdiv`/`Int.fmod`,
  `int(a * b / c)` on nonnegative values becomes `Nat` floor division,
* the frame generator `countdown_and_final_frames` (a Python generator with
  nested `while` loops) becomes explicit fuel-based state passing over a
  mocked clock `clock : ℕ → ℚ` whose samples are consumed one per
  `time.time()` call,
* the supervisor `run_stream` becomes a function from failure / interrupt
  oracles to the list of externally visible events (spawn, write, close,
  terminate, kill, sleep, stop).
-/

/-- Image data as produced by the program: a decoded source frame (identified
by an id and its dimensions), or the result of one of the opaque drawing
library operations the program applies to it.  `resized` records a
`cv2.resize` to the given size, `bordered` a `cv2.copyMakeBorder` with the
given top/bottom/left/right black padding, and `overlaid` the
rectangle-plus-`putText` countdown overlay of `draw_centered_countdown` with
the rendered text.  Each operation is deterministic in its recorded
parameters, so equality of trees is byte-identity of buffers. -/
inductive Frame where
  | src (id w h : Nat)
  | resized (f : Frame) (w h : Nat)
  | bordered (f : Frame) (top bottom left right : Nat)
  | overlaid (f : Frame) (text : String)
deriving DecidableEq, Repr

/-- Pixel width of a frame, following the semantics of the image operations:
`resize` sets the size, `copyMakeBorder` adds the padding, the overlay draws
in place. -/
def Frame.width : Frame → Nat
  | .src _ w _ => w
  | .resized _ w _ => w
  | .bordered f _ _ l r => f.width + l + r
  | .overlaid f _ => f.width

/-- Pixel height of a frame. -/
def Frame.height : Frame → Nat
  | .src _ _ h => h
  | .resized _ _ h => h
  | .bordered f t b _ _ => f.height + t + b
  | .overlaid f _ => f.height

/-- True exactly when the outermost operation on the frame is the countdown
overlay. -/
def Frame.isOverlaid : Frame → Bool
  | .overlaid _ _ => true
  | _ => false

/-- Python `int()` applied to a real (here rational) number: truncation
toward zero. -/
def pyTrunc (q : ℚ) : ℤ :=
  if 0 ≤ q then ⌊q⌋ else -⌊-q⌋

/-- Python `f-string` formatting with format spec `02`: pad with zeros on the
left to a total width of two characters (the sign counts toward the width,
so negative values of two or more characters are printed unpadded). -/
def fmt02 (n : ℤ) : String :=
  if n < 0 then "-" ++ Nat.repr (-n).toNat
  else if n < 10 then "0" ++ Nat.repr n.toNat
  else Nat.repr n.toNat

/-- Text rendered by `draw_centered_countdown`: `mm, ss = divmod(secs_left, 60)`
followed by `f"mm:ss"` with `02` padding.  Python `divmod` is floor division
and the matching remainder. -/
def countdownText (secs_left : ℤ) : String :=
  fmt02 (Int.fdiv secs_left 60) ++ ":" ++ fmt02 (Int.fmod secs_left 60)

/-- Embedding of `draw_centered_countdown(frame, secs_left)` from
`src/Main.py` lines 33-54.  The geometry (text scale, thickness, centred
box) is computed from the frame dimensions and passed to the drawing
library; the resulting buffer is the deterministic overlay of the rendered
`mm:ss` text on `frame`, with unchanged dimensions, recorded by the
`overlaid` node.  The function has no failure branch: it returns a frame for
every integer `secs_left`. -/
def draw_centered_countdown (frame : Frame) (secs_left : ℤ) : Frame :=
  Frame.overlaid frame (countdownText secs_left)

/-- Embedding of `resize_letterbox(frame, target_w, target_h)` from
`src/Main.py` lines 57-76.  The float aspect ratios `target_w / target_h`
and `w / h` become exact rationals; `int(h * target_w / w)` on nonnegative
integers is `Nat` floor division. -/
def resize_letterbox (frame : Frame) (target_w target_h : Nat) : Frame :=
  let h := frame.height
  let w := frame.width
  if (w : ℚ) / (h : ℚ) > (target_w : ℚ) / (target_h : ℚ) then
    let new_w := target_w
    let new_h := h * target_w / w
    let pad := (target_h - new_h) / 2
    Frame.bordered (Frame.resized frame new_w new_h) pad (target_h - new_h - pad) 0 0
  else
    let new_h := target_h
    let new_w := w * target_h / h
    let pad := (target_w - new_w) / 2
    Frame.bordered (Frame.resized frame new_w new_h) 0 0 pad (target_w - new_w - pad)

/-- `cfg.COUNTDOWN_SECONDS` from `src/config.py`. -/
def COUNTDOWN_SECONDS : ℤ := 30

/-- `cfg.RESOLUTION` from `src/config.py`: `(width, height)`. -/
def RESOLUTION : Nat × Nat := (1280, 720)

/-- `cfg.FPS` from `src/config.py`. -/
def FPS : Nat := 30

/-- The `--mode` command line flag of the entry point: one of `preview` and
`stream`. -/
inductive Mode where
  | preview
  | stream
deriving DecidableEq, Repr

/-- The two top-level behaviours the entry point can run. -/
inductive MainAction where
  | runStreamLoop
  | runPreviewWindow
deriving DecidableEq, Repr

/-- Default value of the `--mode` argument (`default="preview"`). -/
def defaultMode : Mode := Mode.preview

/-- Embedding of the `__main__` dispatch of `src/Main.py` lines 226-230:
`if args.mode == "preview": run_stream() else: run_preview()`. -/
def mainDispatch : Mode → MainAction
  | Mode.preview => MainAction.runStreamLoop
  | Mode.stream => MainAction.runPreviewWindow

/-- C10: The entry-point mode dispatch is inverted with respect to its flag
names: `--mode preview` (the default) runs the network streaming loop
`run_stream`, while `--mode stream` runs the local preview window
`run_preview`. -/
theorem C10_mode_dispatch_inverted :
    mainDispatch Mode.preview = MainAction.runStreamLoop ∧
    mainDispatch Mode.stream = MainAction.runPreviewWindow ∧
    mainDispatch defaultMode = MainAction.runStreamLoop := by
  refine ⟨rfl, rfl, rfl⟩

/-- Positivity of both source dimensions follows from the fit-to-width branch
condition of `resize_letterbox`: the target aspect ratio is positive, and a
rational `w / h` with `w = 0` or `h = 0` is `0`. -/
theorem pos_of_ar_gt {w h tw th : Nat} (htw : 0 < tw) (hth : 0 < th)
    (hgt : (w : ℚ) / (h : ℚ) > (tw : ℚ) / (th : ℚ)) : 0 < w ∧ 0 < h := by
  have htgt : (0 : ℚ) < (tw : ℚ) / (th : ℚ) := by positivity
  have hsrc : (0 : ℚ) < (w : ℚ) / (h : ℚ) := lt_trans htgt hgt
  constructor
  · rcases Nat.eq_zero_or_pos w with hw | hw
    · rw [hw] at hsrc; simp at hsrc
    · exact hw
  · rcases Nat.eq_zero_or_pos h with hh | hh
    · rw [hh] at hsrc; simp at hsrc
    · exact hh

/-- In the fit-to-width branch the resized height is strictly below the
target height, so the vertical padding is well defined. -/
theorem new_h_lt_of_ar_gt {w h tw th : Nat} (htw : 0 < tw) (hth : 0 < th)
    (hgt : (w : ℚ) / (h : ℚ) > (tw : ℚ) / (th : ℚ)) : h * tw / w < th := by
  obtain ⟨hw, hh⟩ := pos_of_ar_gt htw hth hgt
  have hq : (tw : ℚ) * (h : ℚ) < (w : ℚ) * (th : ℚ) := by
    have hh0 : (0 : ℚ) < (h : ℚ) := by exact_mod_cast hh
    have hth0 : (0 : ℚ) < (th : ℚ) := by exact_mod_cast hth
    exact (div_lt_div_iff₀ hth0 hh0).mp hgt
  have hn : tw * h < w * th := by exact_mod_cast hq
  have hn2 : h * tw < th * w := by
    rw [Nat.mul_comm h tw, Nat.mul_comm th w]
    exact hn
  exact (Nat.div_lt_iff_lt_mul hw).mpr hn2

/-- In the fit-to-height branch the resized width is at most the target
width. -/
theorem new_w_le_of_ar_le {w h tw th : Nat} (hth : 0 < th)
    (hle : ¬ (w : ℚ) / (h : ℚ) > (tw : ℚ) / (th : ℚ)) : w * th / h ≤ tw := by
  rcases Nat.eq_zero_or_pos h with hh | hh
  · rw [hh]; simp
  rcases Nat.eq_zero_or_pos w with hw | hw
  · rw [hw]; simp
  push_neg at hle
  have hq : (w : ℚ) * (th : ℚ) ≤ (tw : ℚ) * (h : ℚ) := by
    have hh0 : (0 : ℚ) < (h : ℚ) := by exact_mod_cast hh
    have hth0 : (0 : ℚ) < (th : ℚ) := by exact_mod_cast hth
    exact (div_le_div_iff₀ hh0 hth0).mp hle
  have hn : w * th ≤ tw * h := by exact_mod_cast hq
  calc w * th / h ≤ tw * h / h := Nat.div_le_div_right hn
  _ = tw := Nat.mul_div_cancel tw hh

/-- The letterboxed frame has exactly the target dimensions, in both the
fit-to-width and the fit-to-height branch. -/
theorem resize_letterbox_dims (f : Frame) (tw th : Nat) (htw : 0 < tw) (hth : 0 < th) :
    (resize_letterbox f tw th).width = tw ∧ (resize_letterbox f tw th).height = th := by
  by_cases hgt : (f.width : ℚ) / (f.height : ℚ) > (tw : ℚ) / (th : ℚ)
  · have hnh := new_h_lt_of_ar_gt (w := f.width) (h := f.height) htw hth hgt
    simp only [resize_letterbox, if_pos hgt, Frame.width, Frame.height]
    omega
  · have hnw := new_w_le_of_ar_le (w := f.width) (h := f.height) hth hgt
    simp only [resize_letterbox, if_neg hgt, Frame.width, Frame.height]
    omega

/-- The countdown overlay draws in place: it never changes the frame
dimensions. -/
theorem draw_centered_countdown_dims (f : Frame) (s : ℤ) :
    (draw_centered_countdown f s).width = f.width ∧
    (draw_centered_countdown f s).height = f.height :=
  ⟨rfl, rfl⟩

/-- The letterboxed frame is a padded resize, never a countdown overlay. -/
theorem resize_letterbox_not_overlaid (f : Frame) (tw th : Nat) :
    (resize_letterbox f tw th).isOverlaid = false := by
  by_cases hgt : (f.width : ℚ) / (f.height : ℚ) > (tw : ℚ) / (th : ℚ)
  · simp only [resize_letterbox, if_pos hgt, Frame.isOverlaid]
  · simp only [resize_letterbox, if_neg hgt, Frame.isOverlaid]

/-- C3: For every input frame with positive dimensions and every positive
target width and height, `resize_letterbox` returns a frame of exactly the
target size (it never crops), and when the source aspect ratio equals the
target aspect ratio both pad widths are `0`: the result is the plain resize
to the target size with all four borders zero. -/
theorem C3_letterbox_exact_and_no_pad (f : Frame) (tw th : Nat)
    (hfw : 0 < f.width) (hfh : 0 < f.height) (htw : 0 < tw) (hth : 0 < th) :
    ((resize_letterbox f tw th).width = tw ∧ (resize_letterbox f tw th).height = th) ∧
    ((f.width : ℚ) / (f.height : ℚ) = (tw : ℚ) / (th : ℚ) →
      resize_letterbox f tw th = Frame.bordered (Frame.resized f tw th) 0 0 0 0) := by
  refine ⟨resize_letterbox_dims f tw th htw hth, fun hasp => ?_⟩
  have hng : ¬ (f.width : ℚ) / (f.height : ℚ) > (tw : ℚ) / (th : ℚ) := by
    rw [hasp]; exact lt_irrefl _
  have hh0 : (0 : ℚ) < (f.height : ℚ) := by exact_mod_cast hfh
  have hth0 : (0 : ℚ) < (th : ℚ) := by exact_mod_cast hth
  have heq : f.width * th = tw * f.height := by
    have := (div_eq_div_iff hh0.ne' hth0.ne').mp hasp
    exact_mod_cast this
  have hnw : f.width * th / f.height = tw := by
    rw [heq, Nat.mul_div_cancel tw hfh]
  simp only [resize_letterbox, if_neg hng, hnw]
  norm_num

/-- Witness for C3 at a concrete input: a 640x360 source letterboxed to the
configured 1280x720 resolution keeps both dimensions exact and, the aspect
ratios being equal, adds no padding. -/
theorem C3_letterbox_witness :
    ((resize_letterbox (Frame.src 7 640 360) 1280 720).width = 1280 ∧
      (resize_letterbox (Frame.src 7 640 360) 1280 720).height = 720) ∧
    (((Frame.src 7 640 360).width : ℚ) / ((Frame.src 7 640 360).height : ℚ) =
        (1280 : ℚ) / (720 : ℚ) →
      resize_letterbox (Frame.src 7 640 360) 1280 720 =
        Frame.bordered (Frame.resized (Frame.src 7 640 360) 1280 720) 0 0 0 0) :=
  C3_letterbox_exact_and_no_pad (Frame.src 7 640 360) 1280 720
    (by decide) (by decide) (by decide) (by decide)

/-- C8: For every integer `seconds_remaining` (zero and negative included)
the overlay function returns a frame without any failure branch, rendering a
zero-padded `MM:SS` readout whose seconds part lies in `[0, 60)` and whose
minutes part is the unreduced floor quotient, so minutes wrap naturally past
`59` instead of being clamped or reduced modulo `60`. -/
theorem C8_overlay_total_mmss (f : Frame) (s : ℤ) :
    ∃ mm ss : ℤ,
      draw_centered_countdown f s = Frame.overlaid f (fmt02 mm ++ ":" ++ fmt02 ss) ∧
      0 ≤ ss ∧ ss < 60 ∧ 60 * mm + ss = s ∧ (fmt02 ss).length = 2 := by
  refine ⟨Int.fdiv s 60, Int.fmod s 60, rfl, ?_, ?_, ?_, ?_⟩
  · rw [Int.fmod_eq_emod s (by norm_num)]
    exact Int.emod_nonneg s (by norm_num)
  · rw [Int.fmod_eq_emod s (by norm_num)]
    exact Int.emod_lt_of_pos s (by norm_num)
  · linarith [Int.fmod_add_fdiv s 60]
  · have h1 : 0 ≤ Int.fmod s 60 := by
      rw [Int.fmod_eq_emod s (by norm_num)]
      exact Int.emod_nonneg s (by norm_num)
    have h2 : Int.fmod s 60 < 60 := by
      rw [Int.fmod_eq_emod s (by norm_num)]
      exact Int.emod_lt_of_pos s (by norm_num)
    have hfin : ∀ m : ℕ, m < 60 → (fmt02 (m : ℤ)).length = 2 := by decide
    have := hfin (Int.toNat (Int.fmod s 60)) (by omega)
    rwa [Int.toNat_of_nonneg h1] at this

/-- Embedding of the countdown phase of `countdown_and_final_frames`
(`src/Main.py` lines 99-112): the inner `while True` loop of the generator.
`pos` is the read position of the background capture, `k` the index of the
next `time.time()` sample of the mocked clock `clock`, and `st` the
`start_ts` recorded at phase entry.  A failed read (`pos` past the end)
seeks back to position `0` and retries without consuming a clock sample
(`bg_cap.set(CAP_PROP_POS_FRAMES, 0); continue`); a successful read samples
the clock, computes `left = cycle_secs - int(now - start_ts)`, letterboxes,
overlays and yields, and exits the loop after yielding once `left <= 10`.
The loop need not terminate (for example on an empty source), so it is run
on `fuel` iterations; `none` means the fuel was exhausted before the phase
ended, otherwise the result is the yielded frames and the next clock
index.  The Python locals `elapsed`, `left` and `frame` are pure, so they
are inlined. -/
def countdownLoop (bg : List Frame) (tw th : Nat) (c : ℤ) (clock : Nat → ℚ) (st : ℚ) :
    Nat → Nat → Nat → Option (List Frame × Nat)
  | 0, _, _ => none
  | fuel + 1, pos, k =>
    match bg[pos]? with
    | none => countdownLoop bg tw th c clock st fuel 0 k
    | some f =>
      if c - pyTrunc (clock k - st) ≤ 10 then
        some ([draw_centered_countdown (resize_letterbox f tw th)
          (c - pyTrunc (clock k - st))], k + 1)
      else
        match countdownLoop bg tw th c clock st fuel (pos + 1) (k + 1) with
        | none => none
        | some (rest, kk) =>
          some (draw_centered_countdown (resize_letterbox f tw th)
            (c - pyTrunc (clock k - st)) :: rest, kk)

/-- Embedding of the sting phase of `countdown_and_final_frames`
(`src/Main.py` lines 117-124): read frames sequentially from position `pos`,
letterbox (no overlay) and yield each one, and break out of the loop on the
first failed read.  This loop always terminates, no fuel is needed and no
clock sample is consumed. -/
def stingLoop (fin : List Frame) (tw th : Nat) (pos : Nat) : List Frame :=
  match h : fin[pos]? with
  | none => []
  | some f => resize_letterbox f tw th :: stingLoop fin tw th (pos + 1)
termination_by fin.length - pos
decreasing_by
  have hlt : pos < fin.length := by
    by_contra hc
    push_neg at hc
    rw [List.getElem?_eq_none hc] at h
    exact Option.noConfusion h
  omega

/-- One iteration of the outer `while True` loop of
`countdown_and_final_frames` (`src/Main.py` lines 94-125): open the
background source, record `start_ts = time.time()` (one clock sample), run
the countdown phase from position `0`, then play the sting source once from
position `0`.  Returns the frames yielded by the cycle and the next clock
index, or `none` if the countdown fuel ran out. -/
def cycleFrames (bg fin : List Frame) (tw th : Nat) (c : ℤ) (clock : Nat → ℚ)
    (fuel k : Nat) : Option (List Frame × Nat) :=
  match countdownLoop bg tw th c clock (clock k) fuel 0 (k + 1) with
  | none => none
  | some (cd, kk) => some (cd ++ stingLoop fin tw th 0, kk)

/-- Embedding of the infinite generator `countdown_and_final_frames`
(`src/Main.py` lines 82-125), run for a given number of cycles of the outer
loop: the concatenation of the frames of the cycles, each cycle re-opening both
sources from scratch and re-sampling `start_ts`.  The background and sting
sources and the target resolution stand for `cfg.BACKGROUND_VIDEO`,
`cfg.FINAL_VIDEO` and `cfg.RESOLUTION`; `c` is the `cycle_secs` argument. -/
def countdown_and_final_frames (bg fin : List Frame) (tw th : Nat) (c : ℤ)
    (clock : Nat → ℚ) (fuel : Nat) : Nat → Nat → Option (List Frame × Nat)
  | 0, k => some ([], k)
  | n + 1, k =>
    match cycleFrames bg fin tw th c clock fuel k with
    | none => none
    | some (cyc, kk) =>
      match countdown_and_final_frames bg fin tw th c clock fuel n kk with
      | none => none
      | some (rest, k2) => some (cyc ++ rest, k2)

/-- Structure of a completed countdown phase: it yields at least one frame;
it consumes exactly one clock sample per yielded frame; the `i`-th yielded
frame is a background frame letterboxed and overlaid with the remaining time
computed from the `i`-th clock sample; every yielded frame but the last has
remaining time strictly above `10`; the last yielded frame is the first with
remaining time at most `10`. -/
theorem countdownLoop_struct (bg : List Frame) (tw th : Nat) (c : ℤ) (clock : Nat → ℚ)
    (st : ℚ) :
    ∀ fuel pos k fs kk,
      countdownLoop bg tw th c clock st fuel pos k = some (fs, kk) →
      0 < fs.length ∧ kk = k + fs.length ∧
      (∀ i, (hi : i < fs.length) →
        ∃ g, g ∈ bg ∧ fs[i] = draw_centered_countdown (resize_letterbox g tw th)
          (c - pyTrunc (clock (k + i) - st))) ∧
      (∀ i, i + 1 < fs.length → 10 < c - pyTrunc (clock (k + i) - st)) ∧
      c - pyTrunc (clock (k + (fs.length - 1)) - st) ≤ 10 := by
  intro fuel
  induction fuel with
  | zero =>
    intro pos k fs kk h
    simp [countdownLoop] at h
  | succ fuel ih =>
    intro pos k fs kk h
    rw [countdownLoop] at h
    cases hg : bg[pos]? with
    | none =>
      simp only [hg] at h
      exact ih 0 k fs kk h
    | some f =>
      simp only [hg] at h
      by_cases hle : c - pyTrunc (clock k - st) ≤ 10
      · rw [if_pos hle] at h
        injection h with h1
        injection h1 with hfs hkk
        subst hfs
        subst hkk
        refine ⟨by simp, by simp, ?_, ?_, ?_⟩
        · intro i hi
          have hi0 : i = 0 := by simpa using hi
          subst hi0
          exact ⟨f, List.getElem?_mem hg, by simp⟩
        · intro i hi
          simp at hi
        · simpa using hle
      · rw [if_neg hle] at h
        cases hrec : countdownLoop bg tw th c clock st fuel (pos + 1) (k + 1) with
        | none => rw [hrec] at h; exact Option.noConfusion h
        | some p =>
          obtain ⟨rest, kk2⟩ := p
          rw [hrec] at h
          injection h with h1
          injection h1 with hfs hkk
          subst hfs
          subst hkk
          obtain ⟨hlen, hkk, hidx, hmid, hlast⟩ := ih (pos + 1) (k + 1) rest kk2 hrec
          refine ⟨by simp, by simp; omega, ?_, ?_, ?_⟩
          · intro i hi
            cases i with
            | zero =>
              exact ⟨f, List.getElem?_mem hg, by simp⟩
            | succ j =>
              have hj : j < rest.length := by simpa using hi
              obtain ⟨g, hgmem, hgeq⟩ := hidx j hj
              refine ⟨g, hgmem, ?_⟩
              have harith : k + (j + 1) = k + 1 + j := by omega
              rw [harith]
              simpa using hgeq
          · intro i hi
            cases i with
            | zero =>
              simpa using lt_of_not_le hle
            | succ j =>
              have hj : j + 1 < rest.length := by simpa using hi
              have harith : k + (j + 1) = k + 1 + j := by omega
              rw [harith]
              exact hmid j hj
          · have harith : k + ((draw_centered_countdown (resize_letterbox f tw th)
                (c - pyTrunc (clock k - st)) :: rest).length - 1) =
                k + 1 + (rest.length - 1) := by
              simp
              omega
            rw [harith]
            exact hlast

/-- The sting phase from position `pos` yields exactly the remaining sting
frames, letterboxed in order. -/
theorem stingLoop_eq_map (fin : List Frame) (tw th : Nat) :
    ∀ pos, stingLoop fin tw th pos =
      (fin.drop pos).map (fun g => resize_letterbox g tw th) := by
  intro pos
  generalize hd : fin.length - pos = d
  induction d generalizing pos with
  | zero =>
    have hge : fin.length ≤ pos := by omega
    rw [stingLoop]
    rw [List.getElem?_eq_none hge]
    rw [List.drop_eq_nil_of_le hge]
    rfl
  | succ n ihn =>
    have hlt : pos < fin.length := by omega
    rw [stingLoop]
    rw [List.getElem?_eq_getElem hlt]
    rw [List.drop_eq_getElem_cons hlt]
    rw [List.map_cons]
    rw [ihn (pos + 1) (by omega)]

/-- Evaluation of a countdown phase that meets no end-of-stream: if the
remaining time stays above `10` for the first `m` clock samples, drops to at
most `10` at sample `m`, and the background source is long enough that
positions `pos` to `pos + m` all read successfully, then the phase yields
exactly the `m + 1` frames built from consecutive source positions and
consecutive clock samples. -/
theorem countdownLoop_no_eof (bg : List Frame) (tw th : Nat) (c : ℤ) (clock : Nat → ℚ)
    (st : ℚ) (d : Frame) :
    ∀ m fuel pos k, m < fuel → pos + m < bg.length →
      (∀ i, i < m → 10 < c - pyTrunc (clock (k + i) - st)) →
      c - pyTrunc (clock (k + m) - st) ≤ 10 →
      countdownLoop bg tw th c clock st fuel pos k =
        some ((List.range (m + 1)).map (fun i =>
          draw_centered_countdown (resize_letterbox (bg.getD (pos + i) d) tw th)
            (c - pyTrunc (clock (k + i) - st))), k + m + 1) := by
  intro m
  induction m with
  | zero =>
    intro fuel pos k hfuel hpos hmid hlast
    obtain ⟨fuel2, rfl⟩ : ∃ f2, fuel = f2 + 1 := ⟨fuel - 1, by omega⟩
    rw [countdownLoop]
    have hp : pos < bg.length := by omega
    simp only [List.getElem?_eq_getElem hp]
    rw [if_pos (by simpa using hlast)]
    simp [List.range_succ, List.getElem?_eq_getElem hp]
  | succ m ihm =>
    intro fuel pos k hfuel hpos hmid hlast
    obtain ⟨fuel2, rfl⟩ : ∃ f2, fuel = f2 + 1 := ⟨fuel - 1, by omega⟩
    rw [countdownLoop]
    have hp : pos < bg.length := by omega
    simp only [List.getElem?_eq_getElem hp]
    have h0 : 10 < c - pyTrunc (clock k - st) := by
      have := hmid 0 (by omega)
      simpa using this
    rw [if_neg (by exact not_le.mpr h0)]
    have hm2 : ∀ i, i < m → 10 < c - pyTrunc (clock (k + 1 + i) - st) := by
      intro i hi
      have := hmid (i + 1) (by omega)
      have harith : k + (i + 1) = k + 1 + i := by omega
      rwa [harith] at this
    have hl2 : c - pyTrunc (clock (k + 1 + m) - st) ≤ 10 := by
      have harith : k + (m + 1) = k + 1 + m := by omega
      rwa [harith] at hlast
    have hrec := ihm fuel2 (pos + 1) (k + 1) (by omega) (by omega) hm2 hl2
    have hF : (List.range (m + 1 + 1)).map (fun i =>
        draw_centered_countdown (resize_letterbox (bg.getD (pos + i) d) tw th)
          (c - pyTrunc (clock (k + i) - st))) =
        draw_centered_countdown (resize_letterbox (bg.getD (pos + 0) d) tw th)
          (c - pyTrunc (clock (k + 0) - st)) ::
        (List.range (m + 1)).map (fun i =>
          draw_centered_countdown (resize_letterbox (bg.getD (pos + (i + 1)) d) tw th)
            (c - pyTrunc (clock (k + (i + 1)) - st))) := by
      rw [List.range_succ_eq_map, List.map_cons, List.map_map]
      simp only [Function.comp_def, Nat.succ_eq_add_one]
    have hcongr : (List.range (m + 1)).map (fun i =>
        draw_centered_countdown (resize_letterbox (bg.getD (pos + (i + 1)) d) tw th)
          (c - pyTrunc (clock (k + (i + 1)) - st))) =
        (List.range (m + 1)).map (fun i =>
          draw_centered_countdown (resize_letterbox (bg.getD (pos + 1 + i) d) tw th)
            (c - pyTrunc (clock (k + 1 + i) - st))) := by
      apply List.map_congr_left
      intro i hi
      have e1 : pos + (i + 1) = pos + 1 + i := by omega
      have e2 : k + (i + 1) = k + 1 + i := by omega
      rw [e1, e2]
    simp only [hrec]
    rw [hF, hcongr]
    simp only [Nat.add_zero]
    rw [List.getD_eq_getElem bg d hp]
    simp only [Option.some.injEq, Prod.mk.injEq]
    exact ⟨trivial, by omega⟩

/-- Unfolding of one outer-loop iteration of the generator when the
countdown phase completes: the cycle contributes its countdown frames
followed by the sting frames, and the generator continues at the clock index
left by the countdown phase. -/
theorem gen_cycle_succ (bg fin : List Frame) (tw th : Nat) (c : ℤ) (clock : Nat → ℚ)
    (fuel n k : Nat) (cd : List Frame) (k1 : Nat)
    (hcd : countdownLoop bg tw th c clock (clock k) fuel 0 (k + 1) = some (cd, k1)) :
    countdown_and_final_frames bg fin tw th c clock fuel (n + 1) k =
      match countdown_and_final_frames bg fin tw th c clock fuel n k1 with
      | none => none
      | some (rest, k2) => some ((cd ++ stingLoop fin tw th 0) ++ rest, k2) := by
  rw [countdown_and_final_frames]
  unfold cycleFrames
  simp only [hcd]

/-- A single completed cycle of the generator: countdown frames followed by
the sting frames. -/
theorem gen_one_cycle (bg fin : List Frame) (tw th : Nat) (c : ℤ) (clock : Nat → ℚ)
    (fuel k : Nat) (cd : List Frame) (k1 : Nat)
    (hcd : countdownLoop bg tw th c clock (clock k) fuel 0 (k + 1) = some (cd, k1)) :
    countdown_and_final_frames bg fin tw th c clock fuel 1 k =
      some (cd ++ stingLoop fin tw th 0, k1) := by
  have h := gen_cycle_succ bg fin tw th c clock fuel 0 k cd k1 hcd
  rw [show (0 : Nat) + 1 = 1 from rfl] at h
  rw [h]
  rw [countdown_and_final_frames]
  simp

/-- C1: For every run of the frame generator with a mocked clock, a
background source and a sting source, once the countdown phase completes
(hypothesis `hcd`), the generator first yields countdown frames — overlaid
background frames whose computed remaining time stays above `10` on all but
the last frame and is at most `10` on the last, which is still yielded —
then yields exactly as many sting frames as the sting source contains,
letterboxed with no overlay, and then restarts from the countdown phase with
the phase-start timestamp re-sampled from the clock (`clock k1`). -/
theorem C1_cycle_sequencer (bg fin : List Frame) (tw th : Nat) (c : ℤ) (clock : Nat → ℚ)
    (fuel k : Nat) (cd : List Frame) (k1 : Nat)
    (hcd : countdownLoop bg tw th c clock (clock k) fuel 0 (k + 1) = some (cd, k1)) :
    countdown_and_final_frames bg fin tw th c clock fuel 1 k =
      some (cd ++ stingLoop fin tw th 0, k1) ∧
    (0 < cd.length ∧ ∀ f ∈ cd, f.isOverlaid = true) ∧
    (∀ i, (hi : i < cd.length) → ∃ g, g ∈ bg ∧
      cd[i] = draw_centered_countdown (resize_letterbox g tw th)
        (c - pyTrunc (clock (k + 1 + i) - clock k))) ∧
    (∀ i, i + 1 < cd.length → 10 < c - pyTrunc (clock (k + 1 + i) - clock k)) ∧
    c - pyTrunc (clock (k + 1 + (cd.length - 1)) - clock k) ≤ 10 ∧
    stingLoop fin tw th 0 = fin.map (fun g => resize_letterbox g tw th) ∧
    (stingLoop fin tw th 0).length = fin.length ∧
    (∀ f ∈ stingLoop fin tw th 0, f.isOverlaid = false) ∧
    (∀ cd2 k2, countdownLoop bg tw th c clock (clock k1) fuel 0 (k1 + 1) = some (cd2, k2) →
      countdown_and_final_frames bg fin tw th c clock fuel 2 k =
        some ((cd ++ stingLoop fin tw th 0) ++ (cd2 ++ stingLoop fin tw th 0), k2)) := by
  obtain ⟨hlen, hkk, hidx, hmid, hlast⟩ :=
    countdownLoop_struct bg tw th c clock (clock k) fuel 0 (k + 1) cd k1 hcd
  have hsting : stingLoop fin tw th 0 = fin.map (fun g => resize_letterbox g tw th) := by
    rw [stingLoop_eq_map]
    rw [List.drop_zero]
  refine ⟨gen_one_cycle bg fin tw th c clock fuel k cd k1 hcd, ⟨hlen, ?_⟩, hidx, hmid, hlast,
    hsting, ?_, ?_, ?_⟩
  · intro f hf
    obtain ⟨i, hi, hfi⟩ := List.mem_iff_getElem.mp hf
    obtain ⟨g, hg, hgeq⟩ := hidx i hi
    rw [← hfi, hgeq]
    rfl
  · rw [hsting, List.length_map]
  · intro f hf
    rw [hsting] at hf
    obtain ⟨g, hg, hgeq⟩ := List.mem_map.mp hf
    rw [← hgeq]
    exact resize_letterbox_not_overlaid g tw th
  · intro cd2 k2 hcd2
    have h2 := gen_cycle_succ bg fin tw th c clock fuel 1 k cd k1 hcd
    rw [gen_one_cycle bg fin tw th c clock fuel k1 cd2 k2 hcd2] at h2
    rw [show (1 : Nat) + 1 = 2 from rfl] at h2
    rw [h2]

/-- Witness for C1 on concrete inputs: a one-frame background source, a
one-frame sting source, a 16x9 target, `cycle_secs = 30` and a mocked clock
advancing 25 seconds per sample, so the countdown phase yields exactly one
frame (remaining `5 <= 10`) and the cycle is that frame followed by the one
letterboxed sting frame. -/
theorem C1_cycle_sequencer_witness :
    countdown_and_final_frames [Frame.src 0 4 3] [Frame.src 1 4 3] 16 9 30
      (fun n => (25 * n : ℚ)) 5 1 0 =
    some ([Frame.overlaid (Frame.bordered (Frame.resized (Frame.src 0 4 3) 12 9) 0 0 2 2)
        "00:05",
      Frame.bordered (Frame.resized (Frame.src 1 4 3) 12 9) 0 0 2 2], 2) := by
  have hcd : countdownLoop [Frame.src 0 4 3] 16 9 30 (fun n => (25 * n : ℚ))
      ((fun n => (25 * n : ℚ)) 0) 5 0 (0 + 1) =
      some ([Frame.overlaid (Frame.bordered (Frame.resized (Frame.src 0 4 3) 12 9) 0 0 2 2)
        "00:05"], 2) := by
    have h := countdownLoop_no_eof [Frame.src 0 4 3] 16 9 30 (fun n => (25 * n : ℚ))
      ((fun n => (25 * n : ℚ)) 0) (Frame.src 0 0 0) 0 5 0 1 (by norm_num)
      (by simp) (by intro i hi; omega) (by norm_num [pyTrunc])
    rw [h]
    norm_num [List.range_succ, resize_letterbox, draw_centered_countdown, Frame.width,
      Frame.height, pyTrunc, show countdownText 5 = "00:05" from rfl]
  have h1 := (C1_cycle_sequencer [Frame.src 0 4 3] [Frame.src 1 4 3] 16 9 30
    (fun n => (25 * n : ℚ)) 5 0
    [Frame.overlaid (Frame.bordered (Frame.resized (Frame.src 0 4 3) 12 9) 0 0 2 2) "00:05"]
    2 hcd).1
  rw [h1, stingLoop_eq_map]
  norm_num [resize_letterbox, Frame.width, Frame.height]

/-- C6: a source reporting end-of-stream during the countdown phase is not
an error and not a phase end: the failed read seeks the background source
back to position zero and continues the same loop iteration, yielding no
frame and consuming no clock sample; during the sting phase, end-of-stream
is the normal termination signal: the phase yields nothing further and
ends. -/
theorem C6_eof_seek_vs_terminate (bg fin : List Frame) (tw th : Nat) (c : ℤ)
    (clock : Nat → ℚ) (st : ℚ) (fuel pos k pos2 : Nat)
    (h1 : bg[pos]? = none) (h2 : fin[pos2]? = none) :
    countdownLoop bg tw th c clock st (fuel + 1) pos k =
      countdownLoop bg tw th c clock st fuel 0 k ∧
    stingLoop fin tw th pos2 = [] := by
  constructor
  · rw [countdownLoop]
    simp only [h1]
  · rw [stingLoop]
    split
    · rfl
    · rename_i f heq
      rw [h2] at heq
      exact Option.noConfusion heq

/-- Witness for C6 at a concrete input: reading a one-frame background
source at position 1 fails and restarts the countdown loop at position 0
with the same clock index; the sting phase at position 1 of a one-frame
sting source ends immediately. -/
theorem C6_eof_witness :
    countdownLoop [Frame.src 0 4 3] 16 9 30 (fun n => (n : ℚ)) 0 (3 + 1) 1 1 =
      countdownLoop [Frame.src 0 4 3] 16 9 30 (fun n => (n : ℚ)) 0 3 0 1 ∧
    stingLoop [Frame.src 1 4 3] 16 9 1 = [] :=
  C6_eof_seek_vs_terminate [Frame.src 0 4 3] [Frame.src 1 4 3] 16 9 30 (fun n => (n : ℚ))
    0 3 1 1 1 (by simp) (by simp)

/-- C9: the countdown phase is a deterministic function of the elapsed-time
samples and the decoded source frames, carrying no state across restarts:
two countdown phases over the same sources, at different clock positions and
phase-start timestamps but with identical elapsed-time inputs, produce
identical frame sequences. -/
theorem C9_restart_idempotent (bg : List Frame) (tw th : Nat) (c : ℤ)
    (clock clock2 : Nat → ℚ) (st st2 : ℚ) :
    ∀ fuel pos k k2 fs kk,
      (∀ i : Nat, clock (k + i) - st = clock2 (k2 + i) - st2) →
      countdownLoop bg tw th c clock st fuel pos k = some (fs, kk) →
      countdownLoop bg tw th c clock2 st2 fuel pos k2 = some (fs, k2 + fs.length) := by
  intro fuel
  induction fuel with
  | zero =>
    intro pos k k2 fs kk he h
    simp [countdownLoop] at h
  | succ fuel ih =>
    intro pos k k2 fs kk he h
    rw [countdownLoop] at h
    rw [countdownLoop]
    cases hg : bg[pos]? with
    | none =>
      simp only [hg] at h ⊢
      exact ih 0 k k2 fs kk he h
    | some f =>
      simp only [hg] at h ⊢
      have he0 : clock k - st = clock2 k2 - st2 := by
        have := he 0
        simpa using this
      rw [← he0]
      by_cases hle : c - pyTrunc (clock k - st) ≤ 10
      · rw [if_pos hle] at h ⊢
        injection h with h1
        injection h1 with hfs hkk
        subst hfs
        simp
      · rw [if_neg hle] at h ⊢
        cases hrec : countdownLoop bg tw th c clock st fuel (pos + 1) (k + 1) with
        | none =>
          rw [hrec] at h
          exact Option.noConfusion h
        | some p =>
          obtain ⟨rest, kk3⟩ := p
          rw [hrec] at h
          injection h with h1
          injection h1 with hfs hkk
          subst hfs
          have he1 : ∀ i : Nat, clock (k + 1 + i) - st = clock2 (k2 + 1 + i) - st2 := by
            intro i
            have hei := he (i + 1)
            have e1 : k + (i + 1) = k + 1 + i := by omega
            have e2 : k2 + (i + 1) = k2 + 1 + i := by omega
            rwa [e1, e2] at hei
          have h2 := ih (pos + 1) (k + 1) (k2 + 1) rest kk3 he1 hrec
          rw [h2]
          simp [Nat.add_comm, Nat.add_left_comm, Nat.add_assoc]

/-- Witness for C9 at concrete inputs: a first countdown phase at clock
index 1 with phase start 0, and a second at clock index 4 with phase start
82 sampled from a shifted clock, see the same elapsed times and emit the
identical single frame. -/
theorem C9_restart_idempotent_witness :
    countdownLoop [Frame.src 0 4 3] 16 9 30 (fun n => (25 * n + 7 : ℚ)) 82 5 0 4 =
      some ([Frame.overlaid (Frame.bordered (Frame.resized (Frame.src 0 4 3) 12 9) 0 0 2 2)
        "00:05"], 4 + 1) := by
  have hcd : countdownLoop [Frame.src 0 4 3] 16 9 30 (fun n => (25 * n : ℚ)) 0 5 0 1 =
      some ([Frame.overlaid (Frame.bordered (Frame.resized (Frame.src 0 4 3) 12 9) 0 0 2 2)
        "00:05"], 2) := by
    have h := countdownLoop_no_eof [Frame.src 0 4 3] 16 9 30 (fun n => (25 * n : ℚ))
      0 (Frame.src 0 0 0) 0 5 0 1 (by norm_num) (by simp) (by intro i hi; omega)
      (by norm_num [pyTrunc])
    rw [h]
    norm_num [List.range_succ, resize_letterbox, draw_centered_countdown, Frame.width,
      Frame.height, pyTrunc, show countdownText 5 = "00:05" from rfl]
  have h := C9_restart_idempotent [Frame.src 0 4 3] 16 9 30 (fun n => (25 * n : ℚ))
    (fun n => (25 * n + 7 : ℚ)) 0 82 5 0 1 4
    [Frame.overlaid (Frame.bordered (Frame.resized (Frame.src 0 4 3) 12 9) 0 0 2 2) "00:05"]
    2 (by intro i; push_cast; ring) hcd
  simpa using h

/-- Floor of a quotient of naturals in `ℚ`, truncated the Python way, is
natural floor division. -/
theorem pyTrunc_natCast_div (i b : Nat) :
    pyTrunc ((i : ℚ) / (b : ℚ)) = ((i / b : Nat) : ℤ) := by
  unfold pyTrunc
  rw [if_pos (by positivity)]
  rw [show ((i : ℚ) = ((i : ℤ) : ℚ)) from by push_cast; ring]
  rw [Rat.floor_intCast_div_natCast]
  exact (Int.natCast_div i b).symm

/-- The single decoded background frame of the C4 scenario. -/
def bgFrame900 : Frame := Frame.src 0 1920 1080

/-- The C4 scenario background source: 900 frames, 30 seconds of video at 30
frames per second. -/
def bg900 : List Frame := List.replicate 900 bgFrame900

/-- The C4 scenario mocked wall clock, pacing the run at 30 frames per
second: sample `0` (the `start_ts` of the phase) at time `0`, and sample
`j ≥ 1` (taken while emitting frame `j - 1`) at time `(j - 1) / 30`
seconds. -/
def clock30 : Nat → ℚ := fun j => if j = 0 then 0 else ((j : ℚ) - 1) / 30

/-- Remaining time displayed on the `i`-th frame of the C4 scenario:
`30 - (i / 30)` seconds, where the division is integer division. -/
theorem clock30_left (i : Nat) :
    (30 : ℤ) - pyTrunc (clock30 (1 + i) - clock30 0) = 30 - ((i / 30 : Nat) : ℤ) := by
  have h1 : clock30 (1 + i) - clock30 0 = (i : ℚ) / ((30 : Nat) : ℚ) := by
    have hne : ¬ (1 + i = 0) := by omega
    simp only [clock30, if_neg hne, if_pos rfl]
    push_cast
    ring
  rw [h1, pyTrunc_natCast_div]

/-- Evaluation of the countdown phase of the C4 scenario: `cycle_secs = 30`,
a 900-frame background source, 30 frames per second.  The phase completes
without ever hitting end-of-stream (601 of the 900 frames are used) and the
`i`-th of its 601 frames displays `30 - i / 30` seconds remaining. -/
theorem c4_scenario_run :
    countdownLoop bg900 1280 720 30 clock30 (clock30 0) 601 0 1 =
      some ((List.range 601).map (fun i =>
        draw_centered_countdown (resize_letterbox bgFrame900 1280 720)
          (30 - ((i / 30 : Nat) : ℤ))), 602) := by
  have h := countdownLoop_no_eof bg900 1280 720 30 clock30 (clock30 0) bgFrame900
    600 601 0 1 (by norm_num) (by simp only [bg900, List.length_replicate]; omega) ?hmid ?hlast
  case hmid =>
    intro i hi
    rw [clock30_left i]
    omega
  case hlast =>
    rw [clock30_left 600]
    norm_num
  rw [h]
  have hmap : (List.range 601).map (fun i =>
      draw_centered_countdown (resize_letterbox (bg900.getD (0 + i) bgFrame900) 1280 720)
        (30 - pyTrunc (clock30 (1 + i) - clock30 0))) =
      (List.range 601).map (fun i =>
        draw_centered_countdown (resize_letterbox bgFrame900 1280 720)
          (30 - ((i / 30 : Nat) : ℤ))) := by
    apply List.map_congr_left
    intro i hi
    have hi601 : i < 601 := List.mem_range.mp hi
    have hib : 0 + i < bg900.length := by simp only [bg900, List.length_replicate]; omega
    rw [List.getD_eq_getElem bg900 bgFrame900 hib]
    rw [show bg900[0 + i] = bgFrame900 from List.getElem_replicate bgFrame900 hib]
    rw [clock30_left i]
  rw [hmap]

/-- Counterexample to C4 as stated: in the scenario run (`cycle_secs = 30`,
900 background frames at 30 fps) the countdown phase emits two consecutive
frames that are byte-identical and both display a remaining time of `30`
seconds, so the displayed remaining time of the emitted frames is not
strictly decreasing. -/
theorem C4_counterexample :
    ∃ fs : List Frame,
      countdownLoop bg900 1280 720 30 clock30 (clock30 0) 601 0 1 = some (fs, 602) ∧
      2 ≤ fs.length ∧
      fs[0]? = fs[1]? ∧
      fs[0]? = some (draw_centered_countdown (resize_letterbox bgFrame900 1280 720) 30) := by
  refine ⟨_, c4_scenario_run, ?_, ?_, ?_⟩
  · simp
  · simp [List.getElem?_map, List.getElem?_range]
  · simp [List.getElem?_map, List.getElem?_range]

/-- C4 (amended): with `cycle_secs = 30` and a 900-frame background source
at 30 fps, the countdown phase emits 601 frames whose displayed remaining
time is non-increasing from `30` down to `10` inclusive — the first frame
displays `30`, the last displays `10`, every displayed value is at least
`10`, and no frame with remaining time below `10` is emitted before the
phase switches.  (As stated the claim required the per-frame displayed time
to be strictly decreasing, which fails because consecutive frames within
the same wall-clock second display the same value.) -/
theorem C4_countdown_values_amended :
    ∃ fs : List Frame,
      countdownLoop bg900 1280 720 30 clock30 (clock30 0) 601 0 1 = some (fs, 602) ∧
      fs.length = 601 ∧
      fs = (List.range 601).map (fun i =>
        draw_centered_countdown (resize_letterbox bgFrame900 1280 720)
          (30 - ((i / 30 : Nat) : ℤ))) ∧
      (30 : ℤ) - ((0 / 30 : Nat) : ℤ) = 30 ∧
      (30 : ℤ) - ((600 / 30 : Nat) : ℤ) = 10 ∧
      (∀ i j : Nat, i ≤ j → (30 : ℤ) - ((j / 30 : Nat) : ℤ) ≤ 30 - ((i / 30 : Nat) : ℤ)) ∧
      (∀ i : Nat, i < 601 → (10 : ℤ) ≤ 30 - ((i / 30 : Nat) : ℤ)) := by
  refine ⟨_, c4_scenario_run, by simp, rfl, by norm_num, by norm_num, ?_, ?_⟩
  · intro i j hij
    have hd : i / 30 ≤ j / 30 := Nat.div_le_div_right hij
    omega
  · intro i hi
    omega

/-- Externally visible actions of the supervisor `run_stream`
(`src/Main.py` lines 168-197) and of the subprocess API it could call:
spawning the FFmpeg subprocess of an attempt, a completed write of a frame
to its input pipe (tagged with the attempt and the frame index within the
fresh generator of that attempt), closing the input pipe, requesting graceful
termination (`Popen.terminate`), forced termination (`Popen.kill`, present
in the subprocess API but never called by `run_stream`), sleeping the
backoff delay, and exiting the loop. -/
inductive Ev where
  | spawn (attempt : Nat)
  | write (attempt frameIdx : Nat)
  | closePipe (attempt : Nat)
  | terminate (attempt : Nat)
  | kill (attempt : Nat)
  | sleepBackoff (secs : Nat)
  | stop
deriving DecidableEq, Repr

/-- `retry_delay` from `run_stream` (`src/Main.py` line 171). -/
def retry_delay : Nat := 5

/-- Embedding of the inner `for frame in countdown_and_final_frames(...)`
write loop of `run_stream`: each iteration writes the next frame of the
fresh generator of the attempt to the pipe.  `failAt a j` mocks the write of
frame `j` of attempt `a` raising `BrokenPipeError`/`OSError` (re-raised as
`RuntimeError`, so the write does not complete); `intrAt a j` mocks a
`KeyboardInterrupt` arriving at that write.  Returns the completed write
events and `some true` for a write failure, `some false` for an operator
interrupt, `none` if the fuel ran out with neither. -/
def writeLoop (failAt intrAt : Nat → Nat → Bool) (a : Nat) :
    Nat → Nat → List Ev × Option Bool
  | 0, _ => ([], none)
  | fuel + 1, j =>
    if intrAt a j then ([], some false)
    else if failAt a j then ([], some true)
    else
      match writeLoop failAt intrAt a fuel (j + 1) with
      | (evs, r) => (Ev.write a j :: evs, r)

/-- Embedding of the outer `while True` loop of `run_stream`
(`src/Main.py` lines 173-197), producing the event trace: each iteration
spawns a subprocess and iterates a brand-new generator from frame index
`0`; on `KeyboardInterrupt` it closes the pipe, requests termination and
breaks (the process exits); on any other exception — in particular the
`RuntimeError` re-raised from a failed pipe write — it closes the pipe,
requests termination, sleeps `retry_delay` seconds and retries with the
next attempt.  There is no retry counter: only the fuel `n` bounds the
trace. -/
def run_stream (failAt intrAt : Nat → Nat → Bool) : Nat → Nat → Nat → List Ev
  | 0, _, _ => []
  | n + 1, innerFuel, a =>
    Ev.spawn a ::
      match writeLoop failAt intrAt a innerFuel 0 with
      | (evs, some false) => evs ++ [Ev.closePipe a, Ev.terminate a, Ev.stop]
      | (evs, some true) =>
          evs ++ [Ev.closePipe a, Ev.terminate a, Ev.sleepBackoff retry_delay] ++
            run_stream failAt intrAt n innerFuel (a + 1)
      | (evs, none) => evs

/-- Evaluation of the write loop up to its first oracle event: if neither
oracle fires on the `m` writes starting at `j0` and one of them fires at
write `j0 + m`, the loop completes exactly those `m` writes and reports the
interrupt (`some false`) or the failure (`some true`). -/
theorem writeLoop_run (failAt intrAt : Nat → Nat → Bool) (a : Nat) :
    ∀ m fuel j0, m < fuel →
      (∀ i, i < m → intrAt a (j0 + i) = false ∧ failAt a (j0 + i) = false) →
      (intrAt a (j0 + m) = true ∨
        (intrAt a (j0 + m) = false ∧ failAt a (j0 + m) = true)) →
      writeLoop failAt intrAt a fuel j0 =
        ((List.range m).map (fun i => Ev.write a (j0 + i)),
          if intrAt a (j0 + m) then some false else some true) := by
  intro m
  induction m with
  | zero =>
    intro fuel j0 hfuel hquiet hfire
    obtain ⟨fuel2, rfl⟩ : ∃ f2, fuel = f2 + 1 := ⟨fuel - 1, by omega⟩
    rw [writeLoop]
    rcases hfire with hintr | ⟨hintr, hfail⟩
    · rw [Nat.add_zero] at hintr
      rw [if_pos hintr]
      simp [hintr]
    · rw [Nat.add_zero] at hintr hfail
      rw [if_neg (by simp [hintr]), if_pos hfail]
      simp [hintr]
  | succ m ihm =>
    intro fuel j0 hfuel hquiet hfire
    obtain ⟨fuel2, rfl⟩ : ∃ f2, fuel = f2 + 1 := ⟨fuel - 1, by omega⟩
    rw [writeLoop]
    obtain ⟨hi0, hf0⟩ := hquiet 0 (by omega)
    rw [Nat.add_zero] at hi0 hf0
    rw [if_neg (by simp [hi0]), if_neg (by simp [hf0])]
    have hquiet2 : ∀ i, i < m → intrAt a (j0 + 1 + i) = false ∧ failAt a (j0 + 1 + i) = false := by
      intro i hi
      have := hquiet (i + 1) (by omega)
      have e : j0 + (i + 1) = j0 + 1 + i := by omega
      rwa [e] at this
    have hfire2 : intrAt a (j0 + 1 + m) = true ∨
        (intrAt a (j0 + 1 + m) = false ∧ failAt a (j0 + 1 + m) = true) := by
      have e : j0 + (m + 1) = j0 + 1 + m := by omega
      rwa [e] at hfire
    rw [ihm fuel2 (j0 + 1) (by omega) hquiet2 hfire2]
    have e : j0 + 1 + m = j0 + (m + 1) := by omega
    rw [e]
    have hlist : (List.range (m + 1)).map (fun i => Ev.write a (j0 + i)) =
        Ev.write a j0 :: (List.range m).map (fun i => Ev.write a (j0 + 1 + i)) := by
      rw [List.range_succ_eq_map, List.map_cons, List.map_map]
      simp only [Function.comp_def, Nat.succ_eq_add_one, Nat.add_zero]
      refine congrArg (fun t => Ev.write a j0 :: t) ?_
      apply List.map_congr_left
      intro i hi
      have e2 : j0 + (i + 1) = j0 + 1 + i := by omega
      rw [e2]
    rw [hlist]

/-- If the interrupt oracle never fires for an attempt and some write within
the fuel budget fails, the write loop of that attempt reports a write
failure. -/
theorem writeLoop_outcome_fail (failAt intrAt : Nat → Nat → Bool) (a : Nat)
    (hni : ∀ j, intrAt a j = false) :
    ∀ fuel j0, (∃ j, j0 ≤ j ∧ j < j0 + fuel ∧ failAt a j = true) →
      (writeLoop failAt intrAt a fuel j0).2 = some true := by
  intro fuel
  induction fuel with
  | zero =>
    rintro j0 ⟨j, h1, h2, h3⟩
    omega
  | succ fuel ih =>
    rintro j0 ⟨j, h1, h2, h3⟩
    rw [writeLoop]
    rw [if_neg (by simp [hni j0])]
    by_cases hf : failAt a j0 = true
    · rw [if_pos hf]
    · rw [if_neg hf]
      have hrec : (writeLoop failAt intrAt a fuel (j0 + 1)).2 = some true := by
        apply ih
        have hjne : j ≠ j0 := by
          intro he
          rw [he] at h3
          exact hf h3
        exact ⟨j, by omega, by omega, h3⟩
      cases hp : writeLoop failAt intrAt a fuel (j0 + 1) with
      | mk evs r =>
        rw [hp] at hrec
        simp only [hp]
        exact hrec

/-- With no interrupt and a failing write inside the fuel budget of every
attempt, the supervisor keeps relaunching: attempt `a0 + m` is spawned for
every `m`. -/
theorem spawn_mem_run_stream (failAt intrAt : Nat → Nat → Bool) (innerFuel : Nat)
    (hni : ∀ b j, intrAt b j = false)
    (hfails : ∀ b, ∃ j, j < innerFuel ∧ failAt b j = true) :
    ∀ m a0, Ev.spawn (a0 + m) ∈ run_stream failAt intrAt (m + 1) innerFuel a0 := by
  intro m
  induction m with
  | zero =>
    intro a0
    rw [run_stream]
    simp
  | succ m ihm =>
    intro a0
    rw [run_stream]
    have houtcome : (writeLoop failAt intrAt a0 innerFuel 0).2 = some true := by
      apply writeLoop_outcome_fail failAt intrAt a0 (hni a0)
      obtain ⟨j, hj1, hj2⟩ := hfails a0
      exact ⟨j, by omega, by omega, hj2⟩
    cases hp : writeLoop failAt intrAt a0 innerFuel 0 with
    | mk evs r =>
      rw [hp] at houtcome
      simp only at houtcome
      subst houtcome
      simp only [hp]
      have hm := ihm (a0 + 1)
      have e : a0 + 1 + m = a0 + (m + 1) := by omega
      rw [e] at hm
      simp [hm]

/-- C5: whenever the write of frame `N` of attempt `a` fails (broken pipe or
I/O error) with no earlier failure or interrupt, the supervisor closes the
old input pipe, requests termination of the old subprocess, sleeps the
backoff delay, then spawns a brand-new subprocess running a brand-new
generator: the next attempt starts again at frame index `0`, not `N`
(second conjunct), and with no interrupts and persistent failures the retry
goes on without any retry cap: every attempt number is eventually spawned
(third conjunct). -/
theorem C5_supervisor_restart (failAt intrAt : Nat → Nat → Bool) (a N n innerFuel : Nat)
    (hquiet : ∀ j, j < N → intrAt a j = false ∧ failAt a j = false)
    (hfail : failAt a N = true) (hintr : intrAt a N = false) (hfuel : N < innerFuel) :
    run_stream failAt intrAt (n + 1) innerFuel a =
      Ev.spawn a :: ((List.range N).map (fun j => Ev.write a j) ++
        [Ev.closePipe a, Ev.terminate a, Ev.sleepBackoff retry_delay] ++
        run_stream failAt intrAt n innerFuel (a + 1)) ∧
    (∀ n2, ∃ t, run_stream failAt intrAt (n2 + 1) innerFuel (a + 1) =
        Ev.spawn (a + 1) :: t ∧
        (intrAt (a + 1) 0 = false → failAt (a + 1) 0 = false → 0 < innerFuel →
          ∃ t2, t = Ev.write (a + 1) 0 :: t2)) ∧
    ((∀ b j, intrAt b j = false) → (∀ b, ∃ j, j < innerFuel ∧ failAt b j = true) →
      ∀ m a0, Ev.spawn (a0 + m) ∈ run_stream failAt intrAt (m + 1) innerFuel a0) := by
  refine ⟨?_, ?_, ?_⟩
  · rw [run_stream]
    rw [writeLoop_run failAt intrAt a N innerFuel 0 hfuel
      (by intro i hi; simpa using hquiet i hi)
      (Or.inr ⟨by simpa using hintr, by simpa using hfail⟩)]
    simp [hintr]
  · intro n2
    rw [run_stream]
    refine ⟨_, rfl, ?_⟩
    intro hi0 hf0 hfuel0
    obtain ⟨f2, rfl⟩ : ∃ f2, innerFuel = f2 + 1 := ⟨innerFuel - 1, by omega⟩
    rw [writeLoop]
    rw [if_neg (by simp [hi0]), if_neg (by simp [hf0])]
    cases hp : writeLoop failAt intrAt (a + 1) f2 1 with
    | mk evs r =>
      simp only []
      cases r with
      | none => exact ⟨evs, rfl⟩
      | some b =>
        cases b with
        | false =>
          exact ⟨evs ++ [Ev.closePipe (a + 1), Ev.terminate (a + 1), Ev.stop], by simp⟩
        | true =>
          exact ⟨evs ++ [Ev.closePipe (a + 1), Ev.terminate (a + 1),
            Ev.sleepBackoff retry_delay] ++
            run_stream failAt intrAt n2 (f2 + 1) (a + 1 + 1), by simp⟩
  · intro h1 h2
    exact spawn_mem_run_stream failAt intrAt innerFuel h1 h2

/-- Witness for C5 at concrete oracles: in every attempt the write of frame 2
fails and no interrupt arrives, so attempt 0 completes writes 0 and 1,
closes the pipe, terminates, sleeps the backoff and hands over to attempt
1. -/
theorem C5_supervisor_witness :
    run_stream (fun _ j => j == 2) (fun _ _ => false) (1 + 1) 4 0 =
      Ev.spawn 0 :: ((List.range 2).map (fun j => Ev.write 0 j) ++
        [Ev.closePipe 0, Ev.terminate 0, Ev.sleepBackoff retry_delay] ++
        run_stream (fun _ j => j == 2) (fun _ _ => false) 1 4 1) :=
  (C5_supervisor_restart (fun _ j => j == 2) (fun _ _ => false) 0 2 1 4
    (by decide) (by decide) (by decide) (by decide)).1

/-- C7 (amended): on an operator interrupt at a write of the streaming loop
(including one arriving mid-write, before the write completes), the
supervisor closes the input pipe of the subprocess and requests graceful
termination of the subprocess before the process exits, and performs no
further relaunch; no forced kill is issued, because `run_stream` never
calls `Popen.kill`. -/
theorem C7_interrupt_teardown (failAt intrAt : Nat → Nat → Bool) (a J n innerFuel : Nat)
    (hquiet : ∀ j, j < J → intrAt a j = false ∧ failAt a j = false)
    (hintr : intrAt a J = true) (hfuel : J < innerFuel) :
    run_stream failAt intrAt (n + 1) innerFuel a =
      Ev.spawn a :: ((List.range J).map (fun j => Ev.write a j) ++
        [Ev.closePipe a, Ev.terminate a, Ev.stop]) ∧
    (∀ b, Ev.spawn b ∈ run_stream failAt intrAt (n + 1) innerFuel a → b = a) ∧
    (∀ b, Ev.kill b ∉ run_stream failAt intrAt (n + 1) innerFuel a) := by
  have h1 : run_stream failAt intrAt (n + 1) innerFuel a =
      Ev.spawn a :: ((List.range J).map (fun j => Ev.write a j) ++
        [Ev.closePipe a, Ev.terminate a, Ev.stop]) := by
    rw [run_stream]
    rw [writeLoop_run failAt intrAt a J innerFuel 0 hfuel
      (by intro i hi; simpa using hquiet i hi)
      (Or.inl (by simpa using hintr))]
    simp [hintr]
  refine ⟨h1, ?_, ?_⟩
  · intro b hb
    rw [h1] at hb
    simp only [List.mem_cons, List.mem_append, List.mem_map, List.mem_range] at hb
    rcases hb with hb | ⟨⟨j, hj, hb⟩ | hb⟩ <;> simp_all
  · intro b hb
    rw [h1] at hb
    simp only [List.mem_cons, List.mem_append, List.mem_map, List.mem_range] at hb
    rcases hb with hb | ⟨⟨j, hj, hb⟩ | hb⟩ <;> simp_all

/-- Counterexample to C7 as stated: "graceful then forced termination" is
false.  On an interrupt at the very first write the trace is spawn, close
pipe, graceful terminate, stop: the pipe is closed and `terminate` is
requested, but no `kill` is ever requested, so no forced termination
follows the graceful one. -/
theorem C7_counterexample :
    run_stream (fun _ _ => false) (fun _ _ => true) 1 1 0 =
      [Ev.spawn 0, Ev.closePipe 0, Ev.terminate 0, Ev.stop] ∧
    Ev.terminate 0 ∈ run_stream (fun _ _ => false) (fun _ _ => true) 1 1 0 ∧
    Ev.kill 0 ∉ run_stream (fun _ _ => false) (fun _ _ => true) 1 1 0 :=
  ⟨by decide, by decide, by decide⟩

/-- Witness for C7 (amended) at concrete oracles: an interrupt at write 1 of
attempt 0, with fuel for more, yields exactly one completed write followed
by close pipe, graceful terminate and stop. -/
theorem C7_interrupt_witness :
    run_stream (fun _ _ => false) (fun _ j => j == 1) (0 + 1) 3 0 =
      Ev.spawn 0 :: ((List.range 1).map (fun j => Ev.write 0 j) ++
        [Ev.closePipe 0, Ev.terminate 0, Ev.stop]) :=
  (C7_interrupt_teardown (fun _ _ => false) (fun _ j => j == 1) 0 1 0 3
    (by decide) (by decide) (by decide)).1

/-- Every frame of a completed generator cycle has exactly the target
dimensions: countdown frames are letterboxed then overlaid (the overlay
preserves dimensions), sting frames are letterboxed. -/
theorem cycleFrames_dims (bg fin : List Frame) (tw th : Nat) (c : ℤ) (clock : Nat → ℚ)
    (fuel k : Nat) (cyc : List Frame) (kk : Nat) (htw : 0 < tw) (hth : 0 < th)
    (h : cycleFrames bg fin tw th c clock fuel k = some (cyc, kk)) :
    ∀ f ∈ cyc, f.width = tw ∧ f.height = th := by
  unfold cycleFrames at h
  cases hcd : countdownLoop bg tw th c clock (clock k) fuel 0 (k + 1) with
  | none =>
    rw [hcd] at h
    exact absurd h (by simp)
  | some p =>
    obtain ⟨cd, k1⟩ := p
    simp only [hcd] at h
    injection h with h1
    injection h1 with hcyc hkk
    subst hcyc
    intro f hf
    rcases List.mem_append.mp hf with hf | hf
    · obtain ⟨i, hi, hfi⟩ := List.mem_iff_getElem.mp hf
      obtain ⟨hlen, hkk2, hidx, hmid, hlast⟩ :=
        countdownLoop_struct bg tw th c clock (clock k) fuel 0 (k + 1) cd k1 hcd
      obtain ⟨g, hg, hgeq⟩ := hidx i hi
      rw [← hfi, hgeq]
      have hd := resize_letterbox_dims g tw th htw hth
      simpa [draw_centered_countdown, Frame.width, Frame.height] using hd
    · rw [stingLoop_eq_map, List.drop_zero] at hf
      obtain ⟨g, hg, hgeq⟩ := List.mem_map.mp hf
      rw [← hgeq]
      exact resize_letterbox_dims g tw th htw hth

/-- Every frame emitted by any number of generator cycles has exactly the
target dimensions. -/
theorem gen_frames_dims (bg fin : List Frame) (tw th : Nat) (c : ℤ) (clock : Nat → ℚ)
    (fuel : Nat) (htw : 0 < tw) (hth : 0 < th) :
    ∀ n k fs kk,
      countdown_and_final_frames bg fin tw th c clock fuel n k = some (fs, kk) →
      ∀ f ∈ fs, f.width = tw ∧ f.height = th := by
  intro n
  induction n with
  | zero =>
    intro k fs kk h f hf
    rw [countdown_and_final_frames] at h
    injection h with h1
    injection h1 with hfs hkk
    subst hfs
    simp at hf
  | succ n ihn =>
    intro k fs kk h f hf
    rw [countdown_and_final_frames] at h
    cases hcy : cycleFrames bg fin tw th c clock fuel k with
    | none =>
      rw [hcy] at h
      exact absurd h (by simp)
    | some p =>
      obtain ⟨cyc, kk1⟩ := p
      simp only [hcy] at h
      cases hrest : countdown_and_final_frames bg fin tw th c clock fuel n kk1 with
      | none =>
        rw [hrest] at h
        exact absurd h (by simp)
      | some q =>
        obtain ⟨rest, k2⟩ := q
        simp only [hrest] at h
        injection h with h1
        injection h1 with hfs hkk
        subst hfs
        rcases List.mem_append.mp hf with hf | hf
        · exact cycleFrames_dims bg fin tw th c clock fuel k cyc kk1 htw hth hcy f hf
        · exact ihn kk1 rest k2 hrest f hf

/-- C2: every frame yielded by the cycle sequencer, in the countdown phase
and in the sting phase alike, has width and height exactly equal to the
configured target `RESOLUTION`; no frame of any other size is ever
emitted.  The source-positivity hypotheses delimit the claim to decodable
sources: on a source frame with a zero dimension the Python code would
raise before yielding anything. -/
theorem C2_resolution_invariant (bg fin : List Frame) (c : ℤ) (clock : Nat → ℚ)
    (fuel n k : Nat) (fs : List Frame) (kk : Nat)
    (hbg : ∀ g ∈ bg, 0 < g.width ∧ 0 < g.height)
    (hfin : ∀ g ∈ fin, 0 < g.width ∧ 0 < g.height)
    (hrun : countdown_and_final_frames bg fin RESOLUTION.1 RESOLUTION.2 c clock fuel n k =
      some (fs, kk)) :
    ∀ f ∈ fs, f.width = RESOLUTION.1 ∧ f.height = RESOLUTION.2 :=
  gen_frames_dims bg fin RESOLUTION.1 RESOLUTION.2 c clock fuel
    (by norm_num [RESOLUTION]) (by norm_num [RESOLUTION]) n k fs kk hrun

/-- Witness for C2 at concrete inputs: in a one-cycle run at the configured
1280x720 resolution, the emitted overlay frame has exactly the configured
width and height. -/
theorem C2_resolution_witness :
    (Frame.overlaid (Frame.bordered (Frame.resized (Frame.src 0 1280 720) 1280 720) 0 0 0 0)
      "00:05").width = RESOLUTION.1 ∧
    (Frame.overlaid (Frame.bordered (Frame.resized (Frame.src 0 1280 720) 1280 720) 0 0 0 0)
      "00:05").height = RESOLUTION.2 := by
  have hcd : countdownLoop [Frame.src 0 1280 720] 1280 720 30 (fun n => (25 * n : ℚ))
      ((fun n => (25 * n : ℚ)) 0) 5 0 (0 + 1) =
      some ([Frame.overlaid
        (Frame.bordered (Frame.resized (Frame.src 0 1280 720) 1280 720) 0 0 0 0) "00:05"],
        2) := by
    have h := countdownLoop_no_eof [Frame.src 0 1280 720] 1280 720 30
      (fun n => (25 * n : ℚ)) ((fun n => (25 * n : ℚ)) 0) (Frame.src 0 0 0) 0 5 0 1
      (by norm_num) (by simp) (by intro i hi; omega) (by norm_num [pyTrunc])
    rw [h]
    norm_num [List.range_succ, resize_letterbox, draw_centered_countdown, Frame.width,
      Frame.height, pyTrunc, show countdownText 5 = "00:05" from rfl]
  have hrun := gen_one_cycle [Frame.src 0 1280 720] [Frame.src 1 640 360] 1280 720 30
    (fun n => (25 * n : ℚ)) 5 0 _ 2 hcd
  rw [stingLoop_eq_map, List.drop_zero] at hrun
  refine C2_resolution_invariant [Frame.src 0 1280 720] [Frame.src 1 640 360] 30
    (fun n => (25 * n : ℚ)) 5 1 0 _ 2 ?_ ?_ hrun _ (by simp)
  · intro g hg
    simp only [List.mem_singleton] at hg
    subst hg
    exact ⟨by norm_num [Frame.width], by norm_num [Frame.height]⟩
  · intro g hg
    simp only [List.mem_singleton] at hg
    subst hg
    exact ⟨by norm_num [Frame.width], by norm_num [Frame.height]⟩
